import Mathlib

/-!
Shallow embedding of the `modules-pkg/utils` repository (TypeScript sources
`src/string.ts` and the number module `src/unnamed/part_000`) and proofs of
the frozen claims about it.

Modelling conventions:
* JavaScript strings are modelled as `List Char`.  JS strings are sequences of
  UTF-16 code units; the claims under study never depend on surrogate-pair
  splitting, so a code unit is modelled as a `Char`.
* JS numbers appearing as integer values are modelled as `Int` (or `Nat` when
  the claim restricts to non-negative integers); results of the string-to-number
  coercion are modelled by the inductive `JSNum` below with exact rational
  values for finite literals (IEEE-754 rounding of in-range literals is not
  modelled; it is irrelevant to the claims, which only distinguish
  NaN / finite / infinite).
* The JS remainder operator `%` (result carries the sign of the dividend) is
  modelled by `jsRem`.
-/

namespace Utils

/-- JS remainder `a % b` for integers: truncated division remainder, i.e. the
result has the sign of the dividend `a` and magnitude `|a| mod |b|`.
(`b = 0`, which yields NaN in JS, never occurs in the code under study.) -/
def jsRem (a b : Int) : Int :=
  if 0 ≤ a then a % (b.natAbs : Int) else -((-a) % (b.natAbs : Int))

/-- `mod` from the number module: `((n % m) + m) % m` with JS `%`. -/
def mod (n m : Int) : Int :=
  jsRem (jsRem n m + m) m

/-- The left fold `numbers.reduce((acc, n) => acc + n, 0)` of the number
module's `sum`, on a list of integers. -/
def sumFold (l : List Int) : Int :=
  l.foldl (· + ·) 0

/-- `getDivisors` from the number module: the loop
`for (i = 1; i <= Math.floor(n / 2); i++) if (n % i === 0) push(i)`.
`Math.floor (n / 2)` is floor division, which for the positive divisor `2`
is Lean's `Int` division `n / 2`. -/
def getDivisors (n : Int) : List Int :=
  ((List.range' 1 (n / 2).toNat).map (fun i : Nat => (i : Int))).filter
    (fun i => jsRem n i == 0)

/-- `isPerfect` from the number module: `n === sum(...getDivisors(n))`. -/
def isPerfect (n : Int) : Bool :=
  n == sumFold (getDivisors n)

/-! ### String utilities (`src/string.ts`) -/

/-- JS line terminators, the characters NOT matched by the regex `.`
(without the `s` flag): LF, CR, LINE SEPARATOR, PARAGRAPH SEPARATOR. -/
def isLineTerm (c : Char) : Bool :=
  c = '\n' || c = '\r' || c = '\u2028' || c = '\u2029'

/-- `mask` from `string.ts`: `str.replace(/./g, maskChar)`.  The regex `.`
matches every code unit except line terminators, each match being replaced
by the string `maskChar`.  (`$`-substitution patterns in the replacement
string are not modelled; for the single-character masks the claims are
about, a lone `$` is literal anyway.) -/
def mask (str maskChar : List Char) : List Char :=
  str.flatMap (fun c => if isLineTerm c then [c] else maskChar)

/-- `mask` called with its second argument omitted: the source default is
`maskChar = "*"`. -/
def maskDefault (str : List Char) : List Char :=
  mask str ['*']

/-- Global replacement of the single character `c` by the string `rep`:
models `str.replace(/c/g, rep)` for a single-character pattern. -/
def replaceChar (c : Char) (rep : List Char) (str : List Char) : List Char :=
  str.flatMap (fun x => if x = c then rep else [x])

/-- `xssSafe` from `string.ts`:
`str.replace(/</g, "&lt;").replace(/>/g, "&gt;")`. -/
def xssSafe (str : List Char) : List Char :=
  replaceChar '>' "&gt;".data (replaceChar '<' "&lt;".data str)

/-- `htmlSafe` from `string.ts`:
`str.replace(/&/g, "&amp;").replace(/</g, "&lt;").replace(/>/g, "&gt;")`. -/
def htmlSafe (str : List Char) : List Char :=
  replaceChar '>' "&gt;".data
    (replaceChar '<' "&lt;".data (replaceChar '&' "&amp;".data str))

/-- Clamp-and-translate of one index argument of `String.prototype.slice`:
a negative index counts from the end, and the result is clamped to
`[0, len]`. -/
def sliceIndex (len : Nat) (i : Int) : Nat :=
  if i < 0 then ((len : Int) + i).toNat else min i.toNat len

/-- `str.slice(start, end)` of JS on a list of code units. -/
def jsSlice (str : List Char) (start stop : Int) : List Char :=
  let f := sliceIndex str.length start
  let t := sliceIndex str.length stop
  (str.drop f).take (t - f)

/-- `truncate` from `string.ts`:
`str.length > maxLength ? str.slice(0, maxLength - suffix.length) + suffix : str`.
The source default for `suffix` is `"..."` (see `truncateDefault`). -/
def truncate (str : List Char) (maxLength : Int) (suffix : List Char) :
    List Char :=
  if maxLength < (str.length : Int) then
    jsSlice str 0 (maxLength - suffix.length) ++ suffix
  else str

/-- `truncate` called with its third argument omitted: the source default is
`suffix = "..."`. -/
def truncateDefault (str : List Char) (maxLength : Int) : List Char :=
  truncate str maxLength "...".data

/-- The regex character class `[a-z]`. -/
def isAsciiLower (c : Char) : Bool :=
  decide (97 ≤ c.toNat ∧ c.toNat ≤ 122)

/-- The regex character class `[A-Z]`. -/
def isAsciiUpper (c : Char) : Bool :=
  decide (65 ≤ c.toNat ∧ c.toNat ≤ 90)

/-- One pass of the global regex replace
`str.replace(/([a-z])([A-Z])/g, "$1-$2")` of `kebabCase`: at each position,
if a lowercase ASCII letter is immediately followed by an uppercase ASCII
letter, a hyphen is inserted between them and scanning resumes after the
matched pair. -/
def kebabInsert : List Char → List Char
  | [] => []
  | [c] => [c]
  | a :: b :: rest =>
    if isAsciiLower a ∧ isAsciiUpper b then a :: '-' :: b :: kebabInsert rest
    else a :: kebabInsert (b :: rest)

/-- `kebabCase` from `string.ts`:
`str.replace(/([a-z])([A-Z])/g, "$1-$2").toLowerCase()`.
`toLowerCase` is modelled character-wise by `Char.toLower` (the ASCII
mapping relevant to the regexes of this module; full Unicode case mapping
is not modelled). -/
def kebabCase (str : List Char) : List Char :=
  (kebabInsert str).map Char.toLower

/-- `isKebabCase` from `string.ts`: `str === kebabCase(str)`. -/
def isKebabCase (str : List Char) : Bool :=
  str == kebabCase str

/-- First occurrence of the pattern `sep` in a string: `none` if `sep` does
not occur, otherwise `some (before, after)` where `before` is the part
preceding the first occurrence and `after` the part following it. -/
def splitFirst (sep : List Char) : List Char → Option (List Char × List Char)
  | [] => if sep.isPrefixOf [] then some ([], []) else none
  | c :: rest =>
    if sep.isPrefixOf (c :: rest) then some ([], (c :: rest).drop sep.length)
    else
      match splitFirst sep rest with
      | some (p, q) => some (c :: p, q)
      | none => none

theorem splitFirst_length_lt {sep s p q : List Char} (hsep : sep ≠ [])
    (h : splitFirst sep s = some (p, q)) : q.length < s.length := by
  induction s generalizing p q with
  | nil =>
    rw [splitFirst] at h
    have : ¬ sep.isPrefixOf ([] : List Char) = true := by
      intro hpre
      exact hsep (List.prefix_nil.mp (List.isPrefixOf_iff_prefix.mp hpre))
    simp [this] at h
  | cons c rest ih =>
    rw [splitFirst] at h
    by_cases hpre : sep.isPrefixOf (c :: rest) = true
    · rw [if_pos hpre] at h
      have hlen : 1 ≤ sep.length := by
        cases sep with
        | nil => exact absurd rfl hsep
        | cons _ _ => simp
      cases h
      simp only [List.length_drop, List.length_cons]
      omega
    · rw [if_neg hpre] at h
      cases hsf : splitFirst sep rest with
      | none => rw [hsf] at h; cases h
      | some pr =>
        rw [hsf] at h
        cases h
        have := ih (p := pr.1) (q := pr.2) (by rw [hsf])
        simp only [List.length_cons]
        omega

/-- Splitting on a non-empty separator, scanning left to right; each
occurrence of the separator is consumed and the pieces between occurrences
are returned.  This is JS `String.prototype.split` for a non-empty string
separator. -/
def jsSplitAux (sep : List Char) (hsep : sep ≠ []) (s : List Char) :
    List (List Char) :=
  match hm : splitFirst sep s with
  | none => [s]
  | some (p, q) => p :: jsSplitAux sep hsep q
termination_by s.length
decreasing_by exact splitFirst_length_lt hsep hm

/-- `str.split(sep)` of JS for a string separator: with the empty separator
the string is split into its individual code units (the empty string gives
the empty array); with a non-empty separator, pieces between occurrences. -/
def jsSplit (s sep : List Char) : List (List Char) :=
  if hsep : sep = [] then s.map (fun c => [c])
  else jsSplitAux sep hsep s

/-- `totalOccurrences` from `string.ts`: `str.split(subStr).length - 1`. -/
def totalOccurrences (str subStr : List Char) : Int :=
  ((jsSplit str subStr).length : Int) - 1

/-! ### `toOrdinal` (number module) -/

/-- The array literal `["th", "st", "nd", "rd"]` of `toOrdinal`, indexed by
an arbitrary integer: `some` for indices 0..3, `none` (JS `undefined`)
otherwise.  (JS reads `arr[-0]` as index 0, which the `Int` model gives for
free.) -/
def suffixesGet (i : Int) : Option (List Char) :=
  if i = 0 then some "th".data
  else if i = 1 then some "st".data
  else if i = 2 then some "nd".data
  else if i = 3 then some "rd".data
  else none

/-- The suffix expression of `toOrdinal`:
`suffixes[(v - 20) % 10] || suffixes[v] || suffixes[0]` with `v = n % 100`.
`||` falls through exactly on `undefined` here, since every present entry is
a non-empty (hence truthy) string. -/
def ordSuffix (v : Int) : List Char :=
  match suffixesGet (jsRem (v - 20) 10) with
  | some s => s
  | none =>
    match suffixesGet v with
    | some s => s
    | none => "th".data

/-- `toOrdinal` from the number module, on a non-negative integer:
`n + (suffixes[(v-20)%10] || suffixes[v] || suffixes[0])` where `v = n % 100`
and `n + ...` stringifies `n` in decimal.  (JS integers above `2^53` or
`10^21` are outside the model.) -/
def toOrdinal (n : Nat) : List Char :=
  (Nat.repr n).data ++ ordSuffix (jsRem (n : Int) 100)

/-- The standard English ordinal-suffix rule as worded by the spec and the
claim: `"th"` when `n mod 100` is 11, 12 or 13; otherwise by the last digit
of `n` (1 → `"st"`, 2 → `"nd"`, 3 → `"rd"`, else `"th"`).  This is the
claim-side comparison target for `toOrdinal`. -/
def specOrdinalSuffix (n : Nat) : List Char :=
  if n % 100 = 11 ∨ n % 100 = 12 ∨ n % 100 = 13 then "th".data
  else if n % 10 = 1 then "st".data
  else if n % 10 = 2 then "nd".data
  else if n % 10 = 3 then "rd".data
  else "th".data

/-! ### The string-to-number coercion and `isNumeric` -/

/-- The characters the JS `ToNumber(String)` grammar treats as whitespace
(`StrWhiteSpaceChar`): WhiteSpace (TAB, VT, FF, SP, NBSP, ZWNBSP and the
Unicode `Zs` category) and the line terminators. -/
def jsWhitespace : List Char :=
  [' ', '\t', '\n', '\r', '\u000B', '\u000C', '\u00A0', '\u1680',
   '\u2000', '\u2001', '\u2002', '\u2003', '\u2004', '\u2005', '\u2006',
   '\u2007', '\u2008', '\u2009', '\u200A', '\u2028', '\u2029', '\u202F',
   '\u205F', '\u3000', '\uFEFF']

/-- Is `c` whitespace for the numeric-string grammar? -/
def isJsSpace (c : Char) : Bool :=
  jsWhitespace.contains c

/-- Strip leading and trailing grammar whitespace. -/
def jsTrim (s : List Char) : List Char :=
  ((s.dropWhile isJsSpace).reverse.dropWhile isJsSpace).reverse

/-- The result of the JS string-to-number coercion, as far as the claims
distinguish values: NaN, a signed infinity (`true` = negative), or a finite
value.  Finite literal values are taken exactly as rationals; IEEE-754
rounding (and overflow of huge in-grammar literals to `Infinity`) is not
modelled, and `-0` is identified with `0`. -/
inductive JSNum where
  | nan : JSNum
  | inf : Bool → JSNum
  | fin : Rat → JSNum
deriving DecidableEq

/-- Is the coercion result NaN?  (JS `isNaN` on an already-coerced number.) -/
def jsIsNaN : JSNum → Bool
  | JSNum.nan => true
  | _ => false

/-- Is the coercion result a finite number? -/
def JSNum.isFinite : JSNum → Bool
  | JSNum.fin _ => true
  | _ => false

/-- Is the coercion result `+Infinity` or `-Infinity`? -/
def JSNum.isInfinite : JSNum → Bool
  | JSNum.inf _ => true
  | _ => false

/-- Value of a decimal digit character. -/
def digitVal (c : Char) : Nat := c.toNat - 48

/-- Value of a hexadecimal digit character. -/
def hexVal (c : Char) : Nat :=
  if c.isDigit then c.toNat - 48
  else if 'a' ≤ c ∧ c ≤ 'f' then c.toNat - 87
  else c.toNat - 55

/-- The regex class `[0-9a-fA-F]`. -/
def isHexDigit (c : Char) : Bool :=
  c.isDigit || decide ('a' ≤ c ∧ c ≤ 'f') || decide ('A' ≤ c ∧ c ≤ 'F')

/-- The regex class `[0-7]`. -/
def isOctDigit (c : Char) : Bool :=
  decide ('0' ≤ c ∧ c ≤ '7')

/-- The regex class `[01]`. -/
def isBinDigit (c : Char) : Bool :=
  c = '0' || c = '1'

/-- Value of a digit string in the given base. -/
def digitsToNat (base : Nat) (dval : Char → Nat) (ds : List Char) : Nat :=
  ds.foldl (fun acc d => acc * base + dval d) 0

/-- `NonDecimalIntegerLiteral`: `0x`/`0X`, `0o`/`0O`, `0b`/`0B` followed by
at least one digit of the corresponding base, consuming the whole input.
No sign is admitted by the grammar for these. -/
def parseNonDec : List Char → Option Nat
  | '0' :: b :: r =>
    if b = 'x' ∨ b = 'X' then
      if r ≠ [] ∧ r.all isHexDigit then some (digitsToNat 16 hexVal r)
      else none
    else if b = 'o' ∨ b = 'O' then
      if r ≠ [] ∧ r.all isOctDigit then some (digitsToNat 8 digitVal r)
      else none
    else if b = 'b' ∨ b = 'B' then
      if r ≠ [] ∧ r.all isBinDigit then some (digitsToNat 2 digitVal r)
      else none
    else none
  | _ => none

/-- The digits of an exponent (at least one, consuming the whole input). -/
def parseExpDigits (l : List Char) : Option Int :=
  if l ≠ [] ∧ l.all Char.isDigit then some ((digitsToNat 10 digitVal l : Nat) : Int)
  else none

/-- Optional `ExponentPart` (`e`/`E`, optional sign, digits), which must
consume the whole input; absent exponent means `0`. -/
def parseExpOpt : List Char → Option Int
  | [] => some 0
  | c :: r =>
    if c = 'e' ∨ c = 'E' then
      match r with
      | '+' :: r2 => parseExpDigits r2
      | '-' :: r2 => (parseExpDigits r2).map (fun e => -e)
      | r2 => parseExpDigits r2
    else none

/-- Exact value of `d1 . d2 e exp` as a rational. -/
def decValue (d1 d2 : List Char) (e : Int) : Rat :=
  ((digitsToNat 10 digitVal d1 : Rat) +
      (digitsToNat 10 digitVal d2 : Rat) / (10 : Rat) ^ d2.length) *
    (10 : Rat) ^ e

/-- Finite `StrUnsignedDecimalLiteral` (the `Infinity` alternative is handled
by the caller): `digits [. digits] [exp]` or `. digits [exp]`, consuming the
whole input. -/
def parseUnsignedDec (l : List Char) : Option Rat :=
  let d1 := l.takeWhile Char.isDigit
  let r1 := l.dropWhile Char.isDigit
  match r1 with
  | '.' :: r2 =>
    let d2 := r2.takeWhile Char.isDigit
    let r3 := r2.dropWhile Char.isDigit
    if d1 = [] ∧ d2 = [] then none
    else (parseExpOpt r3).map (decValue d1 d2)
  | _ =>
    if d1 = [] then none
    else (parseExpOpt r1).map (decValue d1 [])

/-- The JS `ToNumber` coercion on a string (`+str`), following the
`StringNumericLiteral` grammar: trim whitespace; empty means `0`; otherwise
a non-decimal integer literal, or an optional sign followed by `Infinity`
or a finite decimal literal; anything else is NaN. -/
def jsStringToNumber (s : List Char) : JSNum :=
  let t := jsTrim s
  if t = [] then JSNum.fin 0
  else
    match parseNonDec t with
    | some m => JSNum.fin (m : Rat)
    | none =>
      let signed : Bool × List Char :=
        match t with
        | '+' :: r => (false, r)
        | '-' :: r => (true, r)
        | r => (false, r)
      if signed.2 = "Infinity".data then JSNum.inf signed.1
      else
        match parseUnsignedDec signed.2 with
        | some q => JSNum.fin (if signed.1 then -q else q)
        | none => JSNum.nan

/-- `isNumeric` from `string.ts`: `!isNaN(+str)`. -/
def isNumeric (str : List Char) : Bool :=
  !(jsIsNaN (jsStringToNumber str))

/-! ### Basic facts about `jsRem` and `mod` -/

theorem jsRem_nonneg_eq {a b : Int} (ha : 0 ≤ a) (hb : 0 < b) :
    jsRem a b = a % b := by
  have : (b.natAbs : Int) = b := Int.natAbs_of_nonneg hb.le
  simp [jsRem, ha, this]

theorem jsRem_emod_eq (a : Int) {b : Int} (hb : 0 < b) :
    jsRem a b % b = a % b := by
  have hB : (b.natAbs : Int) = b := Int.natAbs_of_nonneg hb.le
  by_cases ha : 0 ≤ a
  · simp [jsRem, ha, hB, Int.emod_emod_of_dvd]
  · simp only [jsRem, ha, if_false, hB]
    have h0 : (-a) % b ≡ -a [ZMOD b] := Int.emod_emod_of_dvd (-a) dvd_rfl
    simpa using h0.neg

theorem jsRem_bounds {a b : Int} (hb : 0 < b) :
    -b < jsRem a b ∧ jsRem a b < b := by
  have hB : (b.natAbs : Int) = b := Int.natAbs_of_nonneg hb.le
  by_cases ha : 0 ≤ a
  · have h1 := Int.emod_nonneg a hb.ne'
    have h2 := Int.emod_lt_of_pos a hb
    constructor <;> simp [jsRem, ha, hB] <;> omega
  · have h1 := Int.emod_nonneg (-a) hb.ne'
    have h2 := Int.emod_lt_of_pos (-a) hb
    constructor <;> simp [jsRem, ha, hB] <;> omega

theorem mod_eq_emod (n : Int) {m : Int} (hm : 0 < m) :
    mod n m = n % m := by
  have hbd := jsRem_bounds (a := n) hm
  have hnn : 0 ≤ jsRem n m + m := by omega
  rw [mod, jsRem_nonneg_eq hnn hm, Int.add_emod_self, jsRem_emod_eq n hm]

theorem getDivisors_mem {n i : Int} (hn : 0 < n) :
    i ∈ getDivisors n ↔ 1 ≤ i ∧ i ≤ n / 2 ∧ i ∣ n := by
  rw [getDivisors, List.mem_filter, List.mem_map]
  simp only [List.mem_range'_1, beq_iff_eq]
  constructor
  · rintro ⟨⟨j, hj, hji⟩, hrem⟩
    have h1 : 1 ≤ i ∧ i ≤ n / 2 := by omega
    refine ⟨h1.1, h1.2, ?_⟩
    rw [jsRem_nonneg_eq hn.le (by omega)] at hrem
    exact Int.dvd_of_emod_eq_zero hrem
  · rintro ⟨hi1, hi2, hdvd⟩
    refine ⟨⟨i.toNat, ⟨by omega, by omega⟩, by omega⟩, ?_⟩
    rw [jsRem_nonneg_eq hn.le (by omega)]
    exact Int.emod_eq_zero_of_dvd hdvd

theorem getDivisors_sorted (n : Int) : (getDivisors n).Sorted (· < ·) := by
  unfold getDivisors
  apply List.Pairwise.filter
  apply List.Pairwise.map
  · intro a b h
    exact_mod_cast h
  · exact List.pairwise_lt_range' 1 (n / 2).toNat

/-- C8: for every positive integer `n`, `getDivisors n` lists, in ascending
order, exactly the integers in `1 .. n / 2` (floor) dividing `n` — hence
excluding `n` itself — and `isPerfect n` is true iff `n` equals the sum of
that list; in particular `getDivisors 6 = [1, 2, 3]`, `isPerfect 6 = true`
and `isPerfect 4 = false`. -/
theorem C8_getDivisors_isPerfect :
    (∀ n : Int, 0 < n →
      (∀ i : Int, i ∈ getDivisors n ↔ 1 ≤ i ∧ i ≤ n / 2 ∧ i ∣ n) ∧
      (getDivisors n).Sorted (· < ·) ∧
      n ∉ getDivisors n ∧
      (isPerfect n = true ↔ n = sumFold (getDivisors n))) ∧
    getDivisors 6 = [1, 2, 3] ∧ isPerfect 6 = true ∧ isPerfect 4 = false := by
  refine ⟨fun n hn => ⟨fun i => getDivisors_mem hn, getDivisors_sorted n, ?_, ?_⟩,
    by decide, by decide, by decide⟩
  · intro hmem
    have := (getDivisors_mem hn).mp hmem
    omega
  · rw [isPerfect, beq_iff_eq]

/-- Witness for C8 at the concrete input `n = 6`. -/
theorem C8_getDivisors_isPerfect_witness :
    (0 : Int) < 6 ∧
      ((2 : Int) ∈ getDivisors 6 ↔ 1 ≤ (2 : Int) ∧ (2 : Int) ≤ 6 / 2 ∧ (2 : Int) ∣ 6) :=
  ⟨by decide, (C8_getDivisors_isPerfect.1 6 (by decide)).1 2⟩

/-- C10: for every integer `n ≤ 0`, `getDivisors n` is the empty list, so
`isPerfect n` is true exactly when `n = 0`: the code classifies `0` as
perfect and every negative number as not perfect. -/
theorem C10_getDivisors_nonpositive :
    ∀ n : Int, n ≤ 0 → getDivisors n = [] ∧ (isPerfect n = true ↔ n = 0) := by
  intro n hn
  have h2 : (n / 2).toNat = 0 := by omega
  have hdiv : getDivisors n = [] := by unfold getDivisors; rw [h2]; rfl
  refine ⟨hdiv, ?_⟩
  rw [isPerfect, hdiv, beq_iff_eq]
  exact Iff.rfl

/-- Witness for C10 at the concrete inputs `n = -4` and (via the second
conjunct instantiated there) the perfect-number classification. -/
theorem C10_getDivisors_nonpositive_witness :
    (-4 : Int) ≤ 0 ∧
      (getDivisors (-4) = [] ∧ (isPerfect (-4) = true ↔ (-4 : Int) = 0)) :=
  ⟨by decide, C10_getDivisors_nonpositive (-4) (by decide)⟩

/-- C6: for every integer `n` and positive integer `m`, `mod n m` lies in
`[0, m)` and is congruent to `n` modulo `m`; in particular
`mod (-5) 3 = 1`. -/
theorem C6_mod_mathematical :
    (∀ n m : Int, 0 < m →
      0 ≤ mod n m ∧ mod n m < m ∧ m ∣ n - mod n m) ∧
    mod (-5) 3 = 1 := by
  refine ⟨fun n m hm => ?_, by decide⟩
  rw [mod_eq_emod n hm]
  refine ⟨Int.emod_nonneg n hm.ne', Int.emod_lt_of_pos n hm, n / m, ?_⟩
  have := Int.ediv_add_emod n m
  linarith

/-- Witness for C6 at the concrete input `n = -5`, `m = 3`. -/
theorem C6_mod_mathematical_witness :
    (0 : Int) < 3 ∧
      (0 ≤ mod (-5) 3 ∧ mod (-5) 3 < 3 ∧ (3 : Int) ∣ (-5) - mod (-5) 3) :=
  ⟨by decide, C6_mod_mathematical.1 (-5) 3 (by decide)⟩

/-! ### C2: `mask` -/

/-- C2 counterexample: `mask` does not replace every character — the regex
`.` skips line terminators, so `mask "a\nb" "*"` is `"*\n*"`, not `"***"`. -/
theorem C2_mask_counterexample :
    mask "a\nb".data ['*'] = "*\n*".data ∧
      mask "a\nb".data ['*'] ≠ List.map (fun _ => '*') "a\nb".data := by
  decide

/-- C2 (amended): for a single-character mask `c`, `mask` replaces every
character of `s` except the line terminators LF, CR, U+2028 and U+2029
(which are left unchanged), the result has the same length as `s`, and the
omitted-argument default is `c = '*'`. -/
theorem C2_mask_amended :
    ∀ (s : List Char) (c : Char),
      mask s [c] = s.map (fun x => if isLineTerm x then x else c) ∧
      (mask s [c]).length = s.length ∧
      maskDefault s = s.map (fun x => if isLineTerm x then x else '*') := by
  have key : ∀ (s : List Char) (c : Char),
      mask s [c] = s.map (fun x => if isLineTerm x then x else c) := by
    intro s c
    induction s with
    | nil => rfl
    | cons a t ih =>
      simp only [mask, List.flatMap_cons, List.map_cons] at *
      by_cases h : isLineTerm a = true
      · simp [h, ih]
      · simp [h, ih]
  intro s c
  refine ⟨key s c, ?_, ?_⟩
  · rw [key s c, List.length_map]
  · rw [maskDefault]
    exact key s '*'

/-! ### C3: `htmlSafe` versus `xssSafe` -/

/-- C3: `htmlSafe` escapes the ampersand first and the angle brackets
afterwards, so it equals `xssSafe` applied to the string with every `&`
already replaced by `&amp;`; order-dependence checked on a string containing
both `&` and `<`. -/
theorem C3_htmlSafe_escape_order :
    (∀ s : List Char,
      htmlSafe s = xssSafe (replaceChar '&' "&amp;".data s)) ∧
    htmlSafe "a&<b".data = "a&amp;&lt;b".data :=
  ⟨fun _ => rfl, by decide⟩

/-! ### C4: `truncate` -/

theorem jsSlice_zero_nonneg (s : List Char) (e : Int) (he : 0 ≤ e) :
    jsSlice s 0 e = s.take e.toNat := by
  rw [jsSlice, sliceIndex, sliceIndex]
  rw [if_neg (by omega), if_neg (by omega)]
  simp only [Int.toNat_zero, Nat.zero_min, List.drop_zero, Nat.sub_zero]
  rcases Nat.le_total e.toNat s.length with h | h
  · rw [Nat.min_eq_left h]
  · rw [Nat.min_eq_right h, List.take_length, List.take_of_length_le h]

/-- C4: whenever `suffix.length ≤ maxLen`, `truncate s maxLen suffix`
returns the first `maxLen - suffix.length` characters of `s` followed by
`suffix` when `s` is longer than `maxLen`, and `s` unchanged otherwise. -/
theorem C4_truncate (s : List Char) (maxLen : Int) (suffix : List Char)
    (h : (suffix.length : Int) ≤ maxLen) :
    truncate s maxLen suffix =
      if maxLen < (s.length : Int) then
        s.take (maxLen - suffix.length).toNat ++ suffix
      else s := by
  rw [truncate]
  by_cases hc : maxLen < (s.length : Int)
  · rw [if_pos hc, if_pos hc, jsSlice_zero_nonneg _ _ (by omega)]
  · rw [if_neg hc, if_neg hc]

/-- Witness for C4: the claim's own example, `truncate("hello world", 5)`
with the default suffix `"..."` yields `"he..."`. -/
theorem C4_truncate_witness :
    (("...".data.length : Int) ≤ 5) ∧
      truncateDefault "hello world".data 5 = "he...".data := by
  refine ⟨by decide, ?_⟩
  rw [truncateDefault, C4_truncate "hello world".data 5 "...".data (by decide)]
  decide

/-! ### C5: `toOrdinal` -/

theorem ordSuffix_eq_spec : ∀ v : Nat, v < 100 →
    ordSuffix (v : Int) =
      (if v = 11 ∨ v = 12 ∨ v = 13 then "th".data
       else if v % 10 = 1 then "st".data
       else if v % 10 = 2 then "nd".data
       else if v % 10 = 3 then "rd".data
       else "th".data) := by
  decide

/-- C5: for every non-negative integer `n`, `toOrdinal n` is the decimal
representation of `n` followed by the suffix of the standard English
ordinal rules (`th` when `n mod 100` ∈ {11, 12, 13}; else by last digit
1 → `st`, 2 → `nd`, 3 → `rd`, else `th`). -/
theorem C5_toOrdinal_spec :
    ∀ n : Nat, toOrdinal n = (Nat.repr n).data ++ specOrdinalSuffix n := by
  intro n
  rw [toOrdinal]
  have h100 : jsRem (n : Int) 100 = ((n % 100 : Nat) : Int) := by
    rw [jsRem_nonneg_eq (by positivity) (by norm_num)]
    push_cast
    rfl
  rw [h100, ordSuffix_eq_spec (n % 100) (Nat.mod_lt _ (by norm_num))]
  have hmod : n % 10 = n % 100 % 10 := (Nat.mod_mod_of_dvd n (by norm_num)).symm
  rw [specOrdinalSuffix, hmod]

/-! ### C7: `kebabCase` round-trip -/

theorem toNat_ofNat_valid {n : Nat} (h : n.isValidChar) :
    (Char.ofNat n).toNat = n := by
  rw [Char.ofNat, dif_pos h]
  rfl

theorem toLower_toNat (c : Char) :
    (Char.toLower c).toNat =
      if 65 ≤ c.toNat ∧ c.toNat ≤ 90 then c.toNat + 32 else c.toNat := by
  simp only [Char.toLower]
  split
  · next h => exact toNat_ofNat_valid (Or.inl (by omega))
  · rfl

theorem isAsciiUpper_toLower (c : Char) :
    isAsciiUpper (Char.toLower c) = false := by
  rw [isAsciiUpper, decide_eq_false_iff_not]
  have h := toLower_toNat c
  split at h <;> omega

theorem toLower_eq_self {x : Char} (h : ¬(65 ≤ x.toNat ∧ x.toNat ≤ 90)) :
    Char.toLower x = x := by
  simp only [Char.toLower]
  rw [if_neg h]

theorem toLower_toLower (c : Char) :
    Char.toLower (Char.toLower c) = Char.toLower c := by
  apply toLower_eq_self
  have h := toLower_toNat c
  split at h <;> omega

theorem kebabInsert_no_upper :
    ∀ l : List Char, (∀ c ∈ l, isAsciiUpper c = false) → kebabInsert l = l
  | [], _ => rfl
  | [_], _ => rfl
  | a :: b :: rest, h => by
    have hb : isAsciiUpper b = false := h b (by simp)
    rw [kebabInsert, if_neg (by simp [hb])]
    rw [kebabInsert_no_upper (b :: rest)
      (fun c hc => h c (List.mem_cons_of_mem a hc))]

theorem kebabCase_idem (s : List Char) : kebabCase (kebabCase s) = kebabCase s := by
  have hnu : ∀ c ∈ kebabCase s, isAsciiUpper c = false := by
    intro c hc
    rw [kebabCase] at hc
    obtain ⟨x, -, rfl⟩ := List.mem_map.mp hc
    exact isAsciiUpper_toLower x
  conv_lhs => rw [kebabCase, kebabInsert_no_upper _ hnu]
  rw [kebabCase, List.map_map]
  apply List.map_congr_left
  intro a _
  exact toLower_toLower a

/-- C7: `isKebabCase (kebabCase s)` is true for every `s`; equivalently
`kebabCase` is idempotent, `isKebabCase` being the fixed-point test of
`kebabCase`. -/
theorem C7_kebabCase_roundtrip :
    ∀ s : List Char,
      isKebabCase (kebabCase s) = true ∧
      kebabCase (kebabCase s) = kebabCase s := by
  intro s
  refine ⟨?_, kebabCase_idem s⟩
  rw [isKebabCase, kebabCase_idem s]
  exact beq_self_eq_true _

/-! ### C9: `totalOccurrences` with the empty substring -/

/-- C9: splitting on the empty string yields the list of single code units
(`[]` for the empty string), so `totalOccurrences s "" = length s - 1`; in
particular `totalOccurrences "" "" = -1`, a negative occurrence count. -/
theorem C9_totalOccurrences_empty_sub :
    (∀ s : List Char, totalOccurrences s [] = (s.length : Int) - 1) ∧
    totalOccurrences ([] : List Char) [] = -1 := by
  constructor
  · intro s
    rw [totalOccurrences, jsSplit, dif_pos rfl, List.length_map]
  · decide

/-! ### C1: `isNumeric` -/

/-- C1 counterexample: `"Infinity"` coerces to positive infinity — not NaN
but also not a finite number — yet `isNumeric` returns `true` on it. -/
theorem C1_isNumeric_counterexample :
    jsStringToNumber "Infinity".data = JSNum.inf false ∧
      JSNum.isFinite (jsStringToNumber "Infinity".data) = false ∧
      isNumeric "Infinity".data = true := by
  refine ⟨rfl, rfl, rfl⟩

/-- C1 (amended): `isNumeric s` is true iff the coercion of `s` to a number
succeeds at all — producing a finite or an infinite value — and false
exactly when the coercion yields NaN. -/
theorem C1_isNumeric_amended :
    ∀ s : List Char,
      isNumeric s =
        (JSNum.isFinite (jsStringToNumber s) ||
          JSNum.isInfinite (jsStringToNumber s)) := by
  intro s
  rw [isNumeric]
  cases h : jsStringToNumber s <;> rfl

end Utils
